import Mathlib

/-!
Verification of the dynamic pin-state matrix of `src/inc/gpio_std.c`
(`PINS_createInstance` / `PINS_destroyInstance` and the direct cell accesses
performed by `main`).

The C code is embedded shallowly over an explicit allocator model:

* a heap maps addresses (`Nat`, with `0` playing the role of `NULL`) to
  blocks; `malloc` hands out fresh increasing addresses and is driven by a
  failure-injection plan (`Nat → Bool`, indexed by the allocation counter);
* malloc'd memory starts out *uninitialized* (`Val.undef` in every slot),
  exactly as in C — the code uses `malloc`, never `calloc`/`memset`;
* operations whose C behaviour is undefined — dereferencing or freeing a
  pointer that is not a live allocation, reading an out-of-bounds index, or
  branching on an uninitialized pointer value — return `none` (a fault).

Success of an operation is `some`, and `PINS_createInstance` reports
allocation failure by returning the null handle `0`, as the C function
returns `NULL`.
-/

/-- A machine value stored in one slot of an allocated block: uninitialized
memory, a `size_t`, an `int`, or a pointer (address `0` is `NULL`). -/
inductive Val where
  | undef : Val
  | num : Nat → Val
  | int : Int → Val
  | ptr : Nat → Val
  deriving DecidableEq, Repr

/-- An allocated block: either the `pins_t` header (fields `num_of_pins` and
`pins`) or an array block (the port-, pin- and function-level arrays). -/
inductive Block where
  | hdr : Val → Val → Block
  | arr : List Val → Block
  deriving DecidableEq, Repr

/-- A heap: a partial map from addresses to blocks. -/
def Heap : Type := Nat → Option Block

/-- Point update of a heap. -/
def hupd (h : Heap) (a : Nat) (b : Option Block) : Heap :=
  fun x => if x = a then b else h x

/-- The empty heap (the initial state of the allocation-tracking allocator). -/
def emptyHeap : Heap := fun _ => none

/-- Allocator state: the heap, the next fresh address, and the count of
allocation requests made so far (the index into the failure-injection plan). -/
structure AState where
  heap : Heap
  next : Nat
  cnt : Nat

/-- The initial allocator state: empty heap, addresses start at `1`. -/
def s0 : AState := ⟨emptyHeap, 1, 0⟩

/-- `SUCCESS` as defined in the source (`#define SUCCESS 0u`). -/
def SUCCESS : Int := 0

/-- Linux `errno` value `EINVAL` (22); the source stores `-EINVAL`. -/
def EINVAL : Int := 22

/-- `MAX_PORTS` from the `gpioPorts` enum. -/
def MAX_PORTS : Nat := 4

/-- `MAX_FUNC` from the `gpioFuncs` enum. -/
def MAX_FUNC : Nat := 3

/-- `GPIO_OFF` from the `gpioCmd` enum. -/
def GPIO_OFF : Int := 0

/-- `GPIO_ON` from the `gpioCmd` enum. -/
def GPIO_ON : Int := 1

/-- `malloc` under a failure-injection plan: if the plan grants request
number `s.cnt`, a fresh nonzero address is returned and the heap is extended
with block `b`; otherwise the null address `0` is returned.  Freshly
allocated memory is whatever `b` says — callers pass uninitialized blocks. -/
def malloc (plan : Nat → Bool) (b : Block) (s : AState) : Nat × AState :=
  if plan s.cnt then
    (s.next, ⟨hupd s.heap s.next (some b), s.next + 1, s.cnt + 1⟩)
  else
    (0, ⟨s.heap, s.next, s.cnt + 1⟩)

/-- `free`: removing a live allocation from the heap.  Freeing an address
that is not a live allocation (double free, wild pointer) is undefined
behaviour in C and faults here. -/
def free (a : Nat) (s : AState) : Option AState :=
  match s.heap a with
  | some _ => some ⟨hupd s.heap a none, s.next, s.cnt⟩
  | none => none

/-- Using a value as a pointer.  A C program that branches on or
dereferences an indeterminate (uninitialized) value has undefined
behaviour, so only a proper pointer value is accepted. -/
def ptrOf : Val → Option Nat
  | Val.ptr a => some a
  | _ => none

/-- Read slot `i` of the array block at address `a` (fault if `a` is not a
live array allocation or `i` is out of bounds). -/
def readArr (s : AState) (a : Nat) (i : Nat) : Option Val :=
  match s.heap a with
  | some (Block.arr vs) => vs[i]?
  | _ => none

/-- Write slot `i` of the array block at address `a`. -/
def writeArr (s : AState) (a : Nat) (i : Nat) (v : Val) : Option AState :=
  match s.heap a with
  | some (Block.arr vs) =>
      if i < vs.length then
        some ⟨hupd s.heap a (some (Block.arr (vs.set i v))), s.next, s.cnt⟩
      else none
  | _ => none

/-- Read the `num_of_pins` field of the header at address `a`. -/
def readHdrNum (s : AState) (a : Nat) : Option Val :=
  match s.heap a with
  | some (Block.hdr np _) => some np
  | _ => none

/-- Read the `pins` field of the header at address `a`. -/
def readHdrPins (s : AState) (a : Nat) : Option Val :=
  match s.heap a with
  | some (Block.hdr _ pins) => some pins
  | _ => none

/-- Write the `num_of_pins` field of the header at address `a`. -/
def writeHdrNum (s : AState) (a : Nat) (v : Val) : Option AState :=
  match s.heap a with
  | some (Block.hdr _ pins) =>
      some ⟨hupd s.heap a (some (Block.hdr v pins)), s.next, s.cnt⟩
  | _ => none

/-- Write the `pins` field of the header at address `a`. -/
def writeHdrPins (s : AState) (a : Nat) (v : Val) : Option AState :=
  match s.heap a with
  | some (Block.hdr np _) =>
      some ⟨hupd s.heap a (some (Block.hdr np v)), s.next, s.cnt⟩
  | _ => none

/-- The value the local variable `ret` holds at `function_output` in
`PINS_destroyInstance`: `-EINVAL` when the instance was `NULL`, `SUCCESS`
otherwise.  The function ignores it and returns `SUCCESS` (see below). -/
def destroyInternalRet (a : Nat) : Int :=
  if a = 0 then -EINVAL else SUCCESS

/-- The inner loop of `PINS_destroyInstance`:
`for (pin = 0; pin < instance->num_of_pins; pin++) { if (pins[port][pin] != NULL) { free; pins[port][pin] = NULL; } }`.
`mA` is `instance->pins[port]`, `j` the current `pin`, `fuel` the remaining
iterations. -/
def destroyPins (s : AState) (mA : Nat) (fuel j : Nat) : Option AState :=
  match fuel with
  | 0 => some s
  | f + 1 => do
      let v ← readArr s mA j
      let p ← ptrOf v
      let s2 ←
        if p = 0 then some s
        else do
          let s1 ← free p s
          writeArr s1 mA j (Val.ptr 0)
      destroyPins s2 mA f (j + 1)

/-- The outer loop of `PINS_destroyInstance` over the four ports.  `oA` is
`instance->pins`, `np` the pin count read from `instance->num_of_pins`,
`p` the current `port`, `fuel` the remaining iterations. -/
def destroyPorts (s : AState) (oA : Nat) (np : Nat) (fuel p : Nat) : Option AState :=
  match fuel with
  | 0 => some s
  | f + 1 => do
      let v ← readArr s oA p
      let m ← ptrOf v
      let s3 ←
        if m = 0 then some s
        else do
          let s1 ← destroyPins s m np 0
          let s2 ← free m s1
          writeArr s2 oA p (Val.ptr 0)
      destroyPorts s3 oA np f (p + 1)

/-- `PINS_destroyInstance` from `src/inc/gpio_std.c`.  On a `NULL` instance
the code sets `ret = -EINVAL` and jumps to `function_output` — but the final
statement is `return SUCCESS;`, so `SUCCESS` is returned in every case
(`destroyInternalRet` records the dead `ret` value).  On a non-null
instance it frees the function level, the pin level, the port level and the
header bottom-up, nulling each pointer after release, and returns
`SUCCESS`. -/
def PINS_destroyInstance (s : AState) (a : Nat) : Option (AState × Int) :=
  if a = 0 then
    some (s, SUCCESS)
  else
    match s.heap a with
    | some (Block.hdr np pins) => do
        let q ← ptrOf pins
        let s4 ←
          if q = 0 then some s
          else do
            let n ←
              match np with
              | Val.num n => some n
              | _ => none
            let s1 ← destroyPorts s q n 4 0
            let s2 ← free q s1
            writeHdrPins s2 a (Val.ptr 0)
        let s5 ← free a s4
        some (s5, SUCCESS)
    | _ => none

/-- Create-result of a loop inside `PINS_createInstance`: undefined
behaviour, rollback performed and `NULL` about to be returned, or normal
continuation. -/
inductive CRes where
  | fault : CRes
  | rolledBack : AState → CRes
  | ok : AState → CRes

/-- The inner allocation loop of `PINS_createInstance`:
`for (func = 0; func < num_of_pins; func++) { pins[pin][func] = malloc(MAX_FUNC * sizeof(int)); if (== NULL) { PINS_destroyInstance; ... } }`.
`hA` is `pins_matrix`, `mA` the pin-level array being filled, `j` the
current `func` index, `fuel` the remaining iterations.  The malloc'd
function-level block is `MAX_FUNC` *uninitialized* ints. -/
def createFuncs (plan : Nat → Bool) (hA mA : Nat) (fuel j : Nat) (s : AState) : CRes :=
  match fuel with
  | 0 => CRes.ok s
  | f + 1 =>
      let (ad, s1) := malloc plan (Block.arr (List.replicate MAX_FUNC Val.undef)) s
      match writeArr s1 mA j (Val.ptr ad) with
      | none => CRes.fault
      | some s2 =>
          if ad = 0 then
            match PINS_destroyInstance s2 hA with
            | none => CRes.fault
            | some (s3, _) => CRes.rolledBack s3
          else
            createFuncs plan hA mA f (j + 1) s2

/-- The outer allocation loop of `PINS_createInstance` over the four ports:
each iteration mallocs the pin-level array (`num_of_pins` uninitialized
pointers), stores it in `pins[pin]`, rolls back via `PINS_destroyInstance`
if it is `NULL`, and otherwise fills it with the inner loop. -/
def createPorts (plan : Nat → Bool) (hA oA : Nat) (n : Nat) (fuel p : Nat) (s : AState) : CRes :=
  match fuel with
  | 0 => CRes.ok s
  | f + 1 =>
      let (ad, s1) := malloc plan (Block.arr (List.replicate n Val.undef)) s
      match writeArr s1 oA p (Val.ptr ad) with
      | none => CRes.fault
      | some s2 =>
          if ad = 0 then
            match PINS_destroyInstance s2 hA with
            | none => CRes.fault
            | some (s3, _) => CRes.rolledBack s3
          else
            match createFuncs plan hA ad n 0 s2 with
            | CRes.fault => CRes.fault
            | CRes.rolledBack s3 => CRes.rolledBack s3
            | CRes.ok s3 => createPorts plan hA oA n f (p + 1) s3

/-- `PINS_createInstance` from `src/inc/gpio_std.c`: malloc the header (its
two fields uninitialized), store `num_of_pins`, malloc the port-level array
(`MAX_PORTS` uninitialized pointers) and store it in the `pins` field, then
run the nested allocation loops.  The returned address is the instance
handle; `0` (i.e. `NULL`) reports failure. -/
def PINS_createInstance (plan : Nat → Bool) (n : Nat) (s : AState) : Option (AState × Nat) :=
  let (hA, s1) := malloc plan (Block.hdr Val.undef Val.undef) s
  if hA = 0 then
    some (s1, 0)
  else
    match writeHdrNum s1 hA (Val.num n) with
    | none => none
    | some s2 =>
        let (oA, s3) := malloc plan (Block.arr (List.replicate MAX_PORTS Val.undef)) s2
        match writeHdrPins s3 hA (Val.ptr oA) with
        | none => none
        | some s4 =>
            if oA = 0 then
              match free hA s4 with
              | none => none
              | some s5 => some (s5, 0)
            else
              match createPorts plan hA oA n 4 0 s4 with
              | CRes.fault => none
              | CRes.rolledBack s5 => some (s5, 0)
              | CRes.ok s5 => some (s5, hA)

/-- Reading cell `(port, pin, func)` of the instance at address `a`, the
way `main` does (`my_pins->pins[port][pin][func]`). -/
def readCell (s : AState) (a : Nat) (port pin func : Nat) : Option Val :=
  match s.heap a with
  | some (Block.hdr _ pins) => do
      let q ← ptrOf pins
      let v ← readArr s q port
      let m ← ptrOf v
      let w ← readArr s m pin
      let ib ← ptrOf w
      readArr s ib func
  | _ => none

/-- Writing cell `(port, pin, func)` of the instance at address `a`, the
way `main` does (`my_pins->pins[port][pin][func] = cmd`). -/
def writeCell (s : AState) (a : Nat) (port pin func : Nat) (x : Val) : Option AState :=
  match s.heap a with
  | some (Block.hdr _ pins) => do
      let q ← ptrOf pins
      let v ← readArr s q port
      let m ← ptrOf v
      let w ← readArr s m pin
      let ib ← ptrOf w
      writeArr s ib func x
  | _ => none

/-- The plan under which every allocation request succeeds. -/
def planAll : Nat → Bool := fun _ => true

/-- The plan that fails exactly the allocation request number `k`. -/
def planFailAt (k : Nat) : Nat → Bool := fun c => c != k

/-! ### Basic lemmas about the allocator model -/

theorem hupd_self (h : Heap) (a : Nat) (b : Option Block) : hupd h a b a = b := by
  simp [hupd]

theorem hupd_ne (h : Heap) (a : Nat) (b : Option Block) (x : Nat) (hx : x ≠ a) :
    hupd h a b x = h x := by
  simp [hupd, hx]

theorem malloc_true (plan : Nat → Bool) (b : Block) (s : AState) (hp : plan s.cnt = true) :
    malloc plan b s = (s.next, ⟨hupd s.heap s.next (some b), s.next + 1, s.cnt + 1⟩) := by
  rw [malloc, if_pos hp]

theorem malloc_false (plan : Nat → Bool) (b : Block) (s : AState) (hp : plan s.cnt = false) :
    malloc plan b s = (0, ⟨s.heap, s.next, s.cnt + 1⟩) := by
  rw [malloc, if_neg]
  simp [hp]

theorem free_some (s : AState) (a : Nat) (b : Block) (hm : s.heap a = some b) :
    free a s = some ⟨hupd s.heap a none, s.next, s.cnt⟩ := by
  rw [free, hm]

theorem readArr_some (s : AState) (a i : Nat) (vs : List Val)
    (hm : s.heap a = some (Block.arr vs)) :
    readArr s a i = vs[i]? := by
  rw [readArr, hm]

theorem writeArr_some (s : AState) (a i : Nat) (v : Val) (vs : List Val)
    (hm : s.heap a = some (Block.arr vs)) (hi : i < vs.length) :
    writeArr s a i v =
      some ⟨hupd s.heap a (some (Block.arr (vs.set i v))), s.next, s.cnt⟩ := by
  rw [writeArr, hm]
  simp [hi]

theorem writeHdrNum_some (s : AState) (a : Nat) (np pins v : Val)
    (hm : s.heap a = some (Block.hdr np pins)) :
    writeHdrNum s a v = some ⟨hupd s.heap a (some (Block.hdr v pins)), s.next, s.cnt⟩ := by
  rw [writeHdrNum, hm]

theorem writeHdrPins_some (s : AState) (a : Nat) (np pins v : Val)
    (hm : s.heap a = some (Block.hdr np pins)) :
    writeHdrPins s a v = some ⟨hupd s.heap a (some (Block.hdr np v)), s.next, s.cnt⟩ := by
  rw [writeHdrPins, hm]

/-! ### List gadgets describing the slots filled or cleared by the loops -/

/-- Slots `j, …, j+fuel-1` of `vs` overwritten with the consecutive pointers
`base, base+1, …` (what the inner create loop does to a pin-level array). -/
def fillSlots (vs : List Val) (j base fuel : Nat) : List Val :=
  match fuel with
  | 0 => vs
  | f + 1 => fillSlots (vs.set j (Val.ptr base)) (j + 1) (base + 1) f

theorem fillSlots_length (vs : List Val) (j base fuel : Nat) :
    (fillSlots vs j base fuel).length = vs.length := by
  induction fuel generalizing vs j base with
  | zero => rfl
  | succ f ih => rw [fillSlots, ih, List.length_set]

theorem fillSlots_getElem? (vs : List Val) (j base fuel k : Nat)
    (hle : j + fuel ≤ vs.length) :
    (fillSlots vs j base fuel)[k]? =
      if j ≤ k ∧ k < j + fuel then some (Val.ptr (base + (k - j))) else vs[k]? := by
  induction fuel generalizing vs j base with
  | zero =>
      rw [fillSlots, if_neg]
      omega
  | succ f ih =>
      rw [fillSlots, ih _ _ _ (by rw [List.length_set]; omega)]
      rcases Nat.lt_trichotomy k j with hk | hk | hk
      · rw [if_neg (by omega), if_neg (by omega), List.getElem?_set_ne (by omega)]
      · subst hk
        rw [if_neg (by omega), if_pos (by omega), List.getElem?_set_self (by omega)]
        simp
      · by_cases hk2 : k < j + 1 + f
        · rw [if_pos (by omega), if_pos (by omega)]
          have he : k - j = (k - (j + 1)) + 1 := by omega
          rw [he]
          congr 2
          omega
        · rw [if_neg (by omega), if_neg (by omega), List.getElem?_set_ne (by omega)]

/-- Slots `j, …, j+fuel-1` of `vs` overwritten with `NULL` (what the inner
destroy loop does to a pin-level array). -/
def nullSlots (vs : List Val) (j fuel : Nat) : List Val :=
  match fuel with
  | 0 => vs
  | f + 1 => nullSlots (vs.set j (Val.ptr 0)) (j + 1) f

theorem nullSlots_length (vs : List Val) (j fuel : Nat) :
    (nullSlots vs j fuel).length = vs.length := by
  induction fuel generalizing vs j with
  | zero => rfl
  | succ f ih => rw [nullSlots, ih, List.length_set]

theorem nullSlots_getElem? (vs : List Val) (j fuel k : Nat)
    (hle : j + fuel ≤ vs.length) :
    (nullSlots vs j fuel)[k]? =
      if j ≤ k ∧ k < j + fuel then some (Val.ptr 0) else vs[k]? := by
  induction fuel generalizing vs j with
  | zero =>
      rw [nullSlots, if_neg]
      omega
  | succ f ih =>
      rw [nullSlots, ih _ _ (by rw [List.length_set]; omega)]
      rcases Nat.lt_trichotomy k j with hk | hk | hk
      · rw [if_neg (by omega), if_neg (by omega), List.getElem?_set_ne (by omega)]
      · subst hk
        rw [if_neg (by omega), if_pos (by omega), List.getElem?_set_self (by omega)]
      · by_cases hk2 : k < j + 1 + f
        · rw [if_pos (by omega), if_pos (by omega)]
        · rw [if_neg (by omega), if_neg (by omega), List.getElem?_set_ne (by omega)]

/-- Slots `p, …, p+fuel-1` of `ws` overwritten with the pin-level base
addresses `base, base+(n+1), …` (what the outer create loop does to the
port-level array: each port consumes `n+1` fresh addresses). -/
def fillPorts (ws : List Val) (p base n fuel : Nat) : List Val :=
  match fuel with
  | 0 => ws
  | f + 1 => fillPorts (ws.set p (Val.ptr base)) (p + 1) (base + (n + 1)) n f

theorem fillPorts_length (ws : List Val) (p base n fuel : Nat) :
    (fillPorts ws p base n fuel).length = ws.length := by
  induction fuel generalizing ws p base with
  | zero => rfl
  | succ f ih => rw [fillPorts, ih, List.length_set]

theorem fillPorts_getElem? (ws : List Val) (p base n fuel k : Nat)
    (hle : p + fuel ≤ ws.length) :
    (fillPorts ws p base n fuel)[k]? =
      if p ≤ k ∧ k < p + fuel then some (Val.ptr (base + (k - p) * (n + 1))) else ws[k]? := by
  induction fuel generalizing ws p base with
  | zero =>
      rw [fillPorts, if_neg]
      omega
  | succ f ih =>
      rw [fillPorts, ih _ _ _ (by rw [List.length_set]; omega)]
      rcases Nat.lt_trichotomy k p with hk | hk | hk
      · rw [if_neg (by omega), if_neg (by omega), List.getElem?_set_ne (by omega)]
      · subst hk
        rw [if_neg (by omega), if_pos (by omega), List.getElem?_set_self (by omega)]
        simp
      · by_cases hk2 : k < p + 1 + f
        · rw [if_pos (by omega), if_pos (by omega)]
          have he : k - p = (k - (p + 1)) + 1 := by omega
          rw [he, Nat.add_mul, one_mul]
          congr 2
          omega
        · rw [if_neg (by omega), if_neg (by omega), List.getElem?_set_ne (by omega)]

/-- A fully filled pin-level array is the list of its inner addresses. -/
theorem fillSlots_replicate (n base : Nat) :
    fillSlots (List.replicate n Val.undef) 0 base n =
      (List.range n).map fun i => Val.ptr (base + i) := by
  apply List.ext_getElem?
  intro k
  rw [fillSlots_getElem? _ _ _ _ _ (by simp)]
  by_cases hk : k < n
  · rw [if_pos (by omega), List.getElem?_map, List.getElem?_range hk]
    simp
  · rw [if_neg (by omega), List.getElem?_map,
      List.getElem?_eq_none (by simpa using hk),
      List.getElem?_eq_none (by simp; omega)]
    rfl

/-! ### The heap region built for one port and for a run of ports -/

/-- Address of the pin-level array of port `p` when `create` runs from the
initial state: header at `1`, port-level array at `2`, then each port
consumes `n+1` consecutive addresses. -/
def mAd (n p : Nat) : Nat := 3 + p * (n + 1)

/-- The heap region built for a single port whose pin-level array sits at
`base`: the pin-level array points at the `n` following addresses, each an
uninitialized function-level block of `MAX_FUNC` ints. -/
def portSeg (n base : Nat) : Nat → Option Block := fun x =>
  if x = base then
    some (Block.arr ((List.range n).map fun i => Val.ptr (base + 1 + i)))
  else if base + 1 ≤ x ∧ x < base + 1 + n then
    some (Block.arr (List.replicate MAX_FUNC Val.undef))
  else none

/-- The heap region built by `count` consecutive port iterations starting
at address `base`. -/
def segs (n base count : Nat) : Nat → Option Block :=
  match count with
  | 0 => fun _ => none
  | c + 1 => fun x =>
      if x < base + (n + 1) then portSeg n base x else segs n (base + (n + 1)) c x

theorem segs_mid (n base count p : Nat) (hp : p < count) :
    segs n base count (base + p * (n + 1)) =
      some (Block.arr ((List.range n).map fun i => Val.ptr (base + p * (n + 1) + 1 + i))) := by
  induction count generalizing base p with
  | zero => omega
  | succ c ih =>
      cases p with
      | zero =>
          simp only [segs, Nat.zero_mul, Nat.add_zero]
          rw [if_pos (by omega), portSeg, if_pos rfl]
      | succ q =>
          have hx : base + (q + 1) * (n + 1) = (base + (n + 1)) + q * (n + 1) := by
            rw [Nat.add_mul, one_mul]
            omega
          rw [hx]
          simp only [segs]
          rw [if_neg (by omega)]
          exact ih (base + (n + 1)) q (by omega)

theorem segs_inner (n base count p i : Nat) (hp : p < count) (hi : i < n) :
    segs n base count (base + p * (n + 1) + 1 + i) =
      some (Block.arr (List.replicate MAX_FUNC Val.undef)) := by
  induction count generalizing base p with
  | zero => omega
  | succ c ih =>
      cases p with
      | zero =>
          simp only [segs, Nat.zero_mul, Nat.add_zero]
          rw [if_pos (by omega), portSeg, if_neg (by omega), if_pos (by omega)]
      | succ q =>
          have hx : base + (q + 1) * (n + 1) = (base + (n + 1)) + q * (n + 1) := by
            rw [Nat.add_mul, one_mul]
            omega
          rw [hx]
          simp only [segs]
          rw [if_neg (by omega)]
          exact ih (base + (n + 1)) q (by omega)

/-- Every address in the region `[3, 3 + 4(n+1))` is either the pin-level
array of some port `p < 4` or one of its `n` function-level blocks. -/
theorem seg_decompose (n x : Nat) (h1 : 3 ≤ x) (h2 : x < 3 + 4 * (n + 1)) :
    ∃ p d, p < 4 ∧ d ≤ n ∧ x = 3 + p * (n + 1) + d := by
  refine ⟨(x - 3) / (n + 1), (x - 3) % (n + 1), ?_, ?_, ?_⟩
  · rw [Nat.div_lt_iff_lt_mul (by omega)]
    omega
  · have := Nat.mod_lt (x - 3) (y := n + 1) (by omega)
    omega
  · have h3 := Nat.div_add_mod (x - 3) (n + 1)
    have hc : (n + 1) * ((x - 3) / (n + 1)) = ((x - 3) / (n + 1)) * (n + 1) :=
      Nat.mul_comm _ _
    omega

/-! ### Characterization of the success path of `PINS_createInstance` -/

theorem createFuncs_char (plan : Nat → Bool) (hA mA : Nat) (fuel : Nat) :
    ∀ (j : Nat) (s s2 : AState) (vs : List Val),
      s.heap mA = some (Block.arr vs) →
      j + fuel ≤ vs.length →
      mA < s.next → 0 < s.next →
      (∀ x, s.next ≤ x → s.heap x = none) →
      createFuncs plan hA mA fuel j s = CRes.ok s2 →
      s2.next = s.next + fuel ∧ s2.cnt = s.cnt + fuel ∧
        ∀ x, s2.heap x =
          if x = mA then some (Block.arr (fillSlots vs j s.next fuel))
          else if s.next ≤ x ∧ x < s.next + fuel then
            some (Block.arr (List.replicate MAX_FUNC Val.undef))
          else s.heap x := by
  induction fuel with
  | zero =>
      intro j s s2 vs hm hlen hmA h0 hfresh h
      rw [createFuncs] at h
      cases h
      refine ⟨by omega, by omega, fun x => ?_⟩
      rw [fillSlots]
      by_cases hx : x = mA
      · subst hx
        rw [if_pos rfl, hm]
      · rw [if_neg hx, if_neg (by omega)]
  | succ f ih =>
      intro j s s2 vs hm hlen hmA h0 hfresh h
      rw [createFuncs] at h
      cases hpl : plan s.cnt with
      | false =>
          rw [malloc_false _ _ _ hpl] at h
          simp only [writeArr_some ⟨s.heap, s.next, s.cnt + 1⟩ mA j (Val.ptr 0) vs hm
            (by omega)] at h
          rw [if_pos trivial] at h
          split at h <;> cases h
      | true =>
          rw [malloc_true _ _ _ hpl] at h
          have hm1 : (hupd s.heap s.next
              (some (Block.arr (List.replicate MAX_FUNC Val.undef)))) mA =
              some (Block.arr vs) := by
            rw [hupd_ne _ _ _ _ (by omega)]
            exact hm
          simp only [writeArr_some
            ⟨hupd s.heap s.next (some (Block.arr (List.replicate MAX_FUNC Val.undef))),
              s.next + 1, s.cnt + 1⟩ mA j (Val.ptr s.next) vs hm1 (by omega)] at h
          rw [if_neg (by omega)] at h
          obtain ⟨h1, h2, h3⟩ := ih (j + 1)
            ⟨hupd (hupd s.heap s.next (some (Block.arr (List.replicate MAX_FUNC Val.undef))))
              mA (some (Block.arr (vs.set j (Val.ptr s.next)))), s.next + 1, s.cnt + 1⟩
            s2 (vs.set j (Val.ptr s.next))
            (by exact hupd_self _ _ _)
            (by rw [List.length_set]; omega)
            (by show mA < s.next + 1; omega)
            (by show (0 : Nat) < s.next + 1; omega)
            (by
              intro x hx
              have hx2 : (s.next : Nat) + 1 ≤ x := hx
              show (hupd (hupd s.heap s.next _) mA _) x = none
              rw [hupd_ne _ _ _ _ (by omega), hupd_ne _ _ _ _ (by omega)]
              exact hfresh x (by omega))
            h
          have h1a : s2.next = s.next + 1 + f := h1
          have h2a : s2.cnt = s.cnt + 1 + f := h2
          refine ⟨by omega, by omega, fun x => ?_⟩
          have h3x := h3 x
          simp only [] at h3x
          rw [fillSlots]
          by_cases hx : x = mA
          · subst hx
            rw [if_pos rfl] at h3x ⊢
            exact h3x
          · rw [if_neg hx] at h3x ⊢
            by_cases hx2 : s.next + 1 ≤ x ∧ x < s.next + 1 + f
            · rw [if_pos hx2] at h3x
              rw [if_pos (by omega)]
              exact h3x
            · rw [if_neg hx2] at h3x
              rw [hupd_ne _ _ _ _ hx] at h3x
              by_cases hx3 : x = s.next
              · subst hx3
                rw [hupd_self] at h3x
                rw [if_pos (by omega)]
                exact h3x
              · rw [hupd_ne _ _ _ _ hx3] at h3x
                rw [if_neg (by omega)]
                exact h3x

theorem createPorts_char (plan : Nat → Bool) (hA oA n : Nat) (fuel : Nat) :
    ∀ (p : Nat) (s s2 : AState) (ws : List Val),
      s.heap oA = some (Block.arr ws) →
      p + fuel ≤ ws.length →
      oA < s.next → 0 < s.next →
      (∀ x, s.next ≤ x → s.heap x = none) →
      createPorts plan hA oA n fuel p s = CRes.ok s2 →
      s2.next = s.next + fuel * (n + 1) ∧ s2.cnt = s.cnt + fuel * (n + 1) ∧
        ∀ x, s2.heap x =
          if x = oA then some (Block.arr (fillPorts ws p s.next n fuel))
          else if s.next ≤ x ∧ x < s.next + fuel * (n + 1) then segs n s.next fuel x
          else s.heap x := by
  induction fuel with
  | zero =>
      intro p s s2 ws hm hlen hoA h0 hfresh h
      rw [createPorts] at h
      cases h
      refine ⟨by omega, by omega, fun x => ?_⟩
      rw [fillPorts]
      by_cases hx : x = oA
      · subst hx
        rw [if_pos rfl, hm]
      · rw [if_neg hx, if_neg (by omega)]
  | succ f ih =>
      intro p s s2 ws hm hlen hoA h0 hfresh h
      have harith : (f + 1) * (n + 1) = f * (n + 1) + (n + 1) := by ring
      rw [createPorts] at h
      cases hpl : plan s.cnt with
      | false =>
          rw [malloc_false _ _ _ hpl] at h
          simp only [writeArr_some ⟨s.heap, s.next, s.cnt + 1⟩ oA p (Val.ptr 0) ws hm
            (by omega)] at h
          rw [if_pos trivial] at h
          split at h <;> cases h
      | true =>
          rw [malloc_true _ _ _ hpl] at h
          have hm1 : (hupd s.heap s.next (some (Block.arr (List.replicate n Val.undef)))) oA =
              some (Block.arr ws) := by
            rw [hupd_ne _ _ _ _ (by omega)]
            exact hm
          simp only [writeArr_some
            ⟨hupd s.heap s.next (some (Block.arr (List.replicate n Val.undef))),
              s.next + 1, s.cnt + 1⟩ oA p (Val.ptr s.next) ws hm1 (by omega)] at h
          rw [if_neg (by omega)] at h
          rcases hcf : createFuncs plan hA s.next n 0
              ⟨hupd (hupd s.heap s.next (some (Block.arr (List.replicate n Val.undef))))
                oA (some (Block.arr (ws.set p (Val.ptr s.next)))), s.next + 1, s.cnt + 1⟩
            with _ | s3 | s3
          · rw [hcf] at h
            cases h
          · rw [hcf] at h
            cases h
          · rw [hcf] at h
            obtain ⟨hf1, hf2, hf3⟩ := createFuncs_char plan hA s.next n 0
              ⟨hupd (hupd s.heap s.next (some (Block.arr (List.replicate n Val.undef))))
                oA (some (Block.arr (ws.set p (Val.ptr s.next)))), s.next + 1, s.cnt + 1⟩
              s3 (List.replicate n Val.undef)
              (by
                show (hupd (hupd s.heap s.next (some (Block.arr (List.replicate n Val.undef))))
                  oA (some (Block.arr (ws.set p (Val.ptr s.next))))) s.next = _
                rw [hupd_ne _ _ _ _ (by omega), hupd_self])
              (by simp)
              (by show s.next < s.next + 1; omega)
              (by show (0 : Nat) < s.next + 1; omega)
              (by
                intro x hx
                have hx2 : (s.next : Nat) + 1 ≤ x := hx
                show (hupd (hupd s.heap s.next _) oA _) x = none
                rw [hupd_ne _ _ _ _ (by omega), hupd_ne _ _ _ _ (by omega)]
                exact hfresh x (by omega))
              hcf
          -- continue: apply ih at s3
            have hf1a : s3.next = s.next + (n + 1) := by
              have : s3.next = s.next + 1 + n := hf1
              omega
            have hf2a : s3.cnt = s.cnt + (n + 1) := by
              have : s3.cnt = s.cnt + 1 + n := hf2
              omega
            have hs3oA : s3.heap oA = some (Block.arr (ws.set p (Val.ptr s.next))) := by
              have h3 := hf3 oA
              rw [if_neg (by omega), if_neg (by
                show ¬((⟨_, s.next + 1, _⟩ : AState).next ≤ oA ∧ _)
                push_neg
                intro hc
                exact absurd hc (by show ¬ s.next + 1 ≤ oA; omega))] at h3
              rw [h3]
              show (hupd (hupd s.heap s.next _) oA _) oA = _
              rw [hupd_self]
            obtain ⟨g1, g2, g3⟩ := ih (p + 1) s3 s2 (ws.set p (Val.ptr s.next))
              hs3oA
              (by rw [List.length_set]; omega)
              (by omega) (by omega)
              (by
                intro x hx
                have h3 := hf3 x
                rw [if_neg (by omega), if_neg (by
                  show ¬((⟨_, s.next + 1, _⟩ : AState).next ≤ x ∧
                    x < (⟨_, s.next + 1, _⟩ : AState).next + n)
                  show ¬(s.next + 1 ≤ x ∧ x < s.next + 1 + n)
                  omega)] at h3
                rw [h3]
                show (hupd (hupd s.heap s.next _) oA _) x = none
                rw [hupd_ne _ _ _ _ (by omega), hupd_ne _ _ _ _ (by omega)]
                exact hfresh x (by omega))
              h
            refine ⟨by omega, by omega, fun x => ?_⟩
            have g3x := g3 x
            rw [hf1a] at g3x
            by_cases hx : x = oA
            · subst hx
              rw [if_pos rfl] at g3x
              rw [if_pos rfl, fillPorts]
              exact g3x
            · rw [if_neg hx] at g3x ⊢
              by_cases hx2 : s.next + (n + 1) ≤ x ∧ x < s.next + (n + 1) + f * (n + 1)
              · rw [if_pos hx2] at g3x
                rw [if_pos (by omega)]
                simp only [segs]
                rw [if_neg (by omega)]
                exact g3x
              · rw [if_neg hx2] at g3x
                have h3 := hf3 x
                by_cases hx3 : x = s.next
                · subst hx3
                  rw [if_pos rfl, fillSlots_replicate] at h3
                  rw [g3x, h3, if_pos (by omega)]
                  simp only [segs]
                  rw [if_pos (by omega)]
                  rw [portSeg]
                  rw [if_pos rfl]
                · rw [if_neg hx3] at h3
                  by_cases hx4 : s.next + 1 ≤ x ∧ x < s.next + 1 + n
                  · rw [if_pos (by
                      show ((⟨_, s.next + 1, _⟩ : AState).next ≤ x ∧
                        x < (⟨_, s.next + 1, _⟩ : AState).next + n)
                      show (s.next + 1 ≤ x ∧ x < s.next + 1 + n)
                      exact hx4)] at h3
                    rw [g3x, h3, if_pos (by omega)]
                    simp only [segs]
                    rw [if_pos (by omega)]
                    rw [portSeg]
                    rw [if_neg (by omega), if_pos (by omega)]
                  · rw [if_neg (by
                      show ¬((⟨_, s.next + 1, _⟩ : AState).next ≤ x ∧
                        x < (⟨_, s.next + 1, _⟩ : AState).next + n)
                      show ¬(s.next + 1 ≤ x ∧ x < s.next + 1 + n)
                      exact hx4)] at h3
                    rw [g3x, h3]
                    show (hupd (hupd s.heap s.next
                        (some (Block.arr (List.replicate n Val.undef))))
                        oA (some (Block.arr (ws.set p (Val.ptr s.next))))) x = _
                    rw [hupd_ne _ _ _ _ hx, hupd_ne _ _ _ _ hx3, if_neg (by omega)]

/-- The heap produced by a successful `PINS_createInstance` run from the
initial state: header at `1`, port-level array at `2`, and for each port
`p < 4` a pin-level array at `3 + p(n+1)` followed by its `n` function-level
blocks. -/
def createdHeapFn (n : Nat) : Heap := fun x =>
  if x = 1 then some (Block.hdr (Val.num n) (Val.ptr 2))
  else if x = 2 then some (Block.arr (fillPorts (List.replicate MAX_PORTS Val.undef) 0 3 n 4))
  else if 3 ≤ x ∧ x < 3 + 4 * (n + 1) then segs n 3 4 x
  else none

theorem create_char (plan : Nat → Bool) (n : Nat) (s2 : AState) (a : Nat)
    (h : PINS_createInstance plan n s0 = some (s2, a)) (ha : a ≠ 0) :
    a = 1 ∧ s2.next = 3 + 4 * (n + 1) ∧ s2.cnt = 2 + 4 * (n + 1) ∧
      ∀ x, s2.heap x = createdHeapFn n x := by
  rw [PINS_createInstance] at h
  cases hpl0 : plan 0 with
  | false =>
      rw [malloc_false plan _ s0 hpl0] at h
      simp only [] at h
      rw [if_pos (by trivial)] at h
      cases h
      exact absurd rfl ha
  | true =>
      rw [malloc_true plan _ s0 hpl0] at h
      simp only [] at h
      rw [show s0.heap = emptyHeap from rfl, show s0.next = 1 from rfl,
        show s0.cnt = 0 from rfl] at h
      rw [if_neg (by decide), show (1 : Nat) + 1 = 2 from rfl,
        show (0 : Nat) + 1 = 1 from rfl] at h
      rw [writeHdrNum_some ⟨hupd emptyHeap 1 (some (Block.hdr Val.undef Val.undef)), 2, 1⟩
        1 Val.undef Val.undef (Val.num n) rfl] at h
      simp only [] at h
      cases hpl1 : plan 1 with
      | false =>
          rw [malloc_false plan _
            ⟨hupd (hupd emptyHeap 1 (some (Block.hdr Val.undef Val.undef))) 1
              (some (Block.hdr (Val.num n) Val.undef)), 2, 1⟩ hpl1] at h
          simp only [] at h
          rw [writeHdrPins_some
            ⟨hupd (hupd emptyHeap 1 (some (Block.hdr Val.undef Val.undef))) 1
              (some (Block.hdr (Val.num n) Val.undef)), 2, 1 + 1⟩
            1 (Val.num n) Val.undef (Val.ptr 0) rfl] at h
          simp only [] at h
          rw [if_pos (by trivial)] at h
          rw [free_some
            ⟨hupd (hupd (hupd emptyHeap 1 (some (Block.hdr Val.undef Val.undef))) 1
              (some (Block.hdr (Val.num n) Val.undef))) 1
              (some (Block.hdr (Val.num n) (Val.ptr 0))), 2, 1 + 1⟩
            1 (Block.hdr (Val.num n) (Val.ptr 0)) rfl] at h
          simp only [] at h
          cases h
          exact absurd rfl ha
      | true =>
          rw [malloc_true plan _
            ⟨hupd (hupd emptyHeap 1 (some (Block.hdr Val.undef Val.undef))) 1
              (some (Block.hdr (Val.num n) Val.undef)), 2, 1⟩ hpl1] at h
          simp only [] at h
          rw [writeHdrPins_some
            ⟨hupd (hupd (hupd emptyHeap 1 (some (Block.hdr Val.undef Val.undef))) 1
              (some (Block.hdr (Val.num n) Val.undef))) 2
              (some (Block.arr (List.replicate MAX_PORTS Val.undef))), 2 + 1, 1 + 1⟩
            1 (Val.num n) Val.undef (Val.ptr 2) rfl] at h
          simp only [] at h
          rw [if_neg (by decide)] at h
          rcases hcp : createPorts plan 1 2 n 4 0
            ⟨hupd (hupd (hupd (hupd emptyHeap 1 (some (Block.hdr Val.undef Val.undef))) 1
                (some (Block.hdr (Val.num n) Val.undef))) 2
                (some (Block.arr (List.replicate MAX_PORTS Val.undef)))) 1
                (some (Block.hdr (Val.num n) (Val.ptr 2))), 2 + 1, 1 + 1⟩
            with _ | s5 | s5
          · rw [hcp] at h
            cases h
          · rw [hcp] at h
            cases h
            exact absurd rfl ha
          · rw [hcp] at h
            cases h
            obtain ⟨g1, g2, g3⟩ := createPorts_char plan 1 2 n 4 0
              ⟨hupd (hupd (hupd (hupd emptyHeap 1 (some (Block.hdr Val.undef Val.undef))) 1
                  (some (Block.hdr (Val.num n) Val.undef))) 2
                  (some (Block.arr (List.replicate MAX_PORTS Val.undef)))) 1
                  (some (Block.hdr (Val.num n) (Val.ptr 2))), 2 + 1, 1 + 1⟩
              s2 (List.replicate MAX_PORTS Val.undef)
              rfl
              (by rw [List.length_replicate]; decide)
              (by show (2 : Nat) < 2 + 1; decide)
              (by show (0 : Nat) < 2 + 1; decide)
              (by
                intro x hx
                have hx2 : (2 : Nat) + 1 ≤ x := hx
                show (hupd (hupd (hupd (hupd emptyHeap 1 (some (Block.hdr Val.undef Val.undef))) 1
                  (some (Block.hdr (Val.num n) Val.undef))) 2
                  (some (Block.arr (List.replicate MAX_PORTS Val.undef)))) 1
                  (some (Block.hdr (Val.num n) (Val.ptr 2)))) x = none
                rw [hupd_ne _ _ _ _ (by omega), hupd_ne _ _ _ _ (by omega),
                  hupd_ne _ _ _ _ (by omega), hupd_ne _ _ _ _ (by omega)]
                rfl)
              hcp
            have g1a : s2.next = 2 + 1 + 4 * (n + 1) := g1
            have g2a : s2.cnt = 1 + 1 + 4 * (n + 1) := g2
            refine ⟨rfl, by omega, by omega, fun x => ?_⟩
            have g3x := g3 x
            rw [createdHeapFn]
            by_cases hx1 : x = 1
            · subst hx1
              rw [if_neg (by decide), if_neg (by omega)] at g3x
              rw [g3x, if_pos rfl]
              show (hupd (hupd (hupd (hupd emptyHeap 1 (some (Block.hdr Val.undef Val.undef))) 1
                (some (Block.hdr (Val.num n) Val.undef))) 2
                (some (Block.arr (List.replicate MAX_PORTS Val.undef)))) 1
                (some (Block.hdr (Val.num n) (Val.ptr 2)))) 1 = _
              rw [hupd_self]
            · by_cases hx2 : x = 2
              · subst hx2
                rw [if_pos rfl] at g3x
                rw [g3x, if_neg (by decide), if_pos rfl]
              · rw [if_neg hx2] at g3x
                rw [if_neg hx1, if_neg hx2]
                by_cases hx3 : 3 ≤ x ∧ x < 3 + 4 * (n + 1)
                · rw [if_pos (by
                    show (⟨_, 2 + 1, _⟩ : AState).next ≤ x ∧
                      x < (⟨_, 2 + 1, _⟩ : AState).next + 4 * (n + 1)
                    show 2 + 1 ≤ x ∧ x < 2 + 1 + 4 * (n + 1)
                    omega)] at g3x
                  rw [g3x, if_pos hx3]
                · rw [if_neg (by
                    show ¬((⟨_, 2 + 1, _⟩ : AState).next ≤ x ∧
                      x < (⟨_, 2 + 1, _⟩ : AState).next + 4 * (n + 1))
                    show ¬(2 + 1 ≤ x ∧ x < 2 + 1 + 4 * (n + 1))
                    omega)] at g3x
                  rw [g3x, if_neg hx3]
                  show (hupd (hupd (hupd (hupd emptyHeap 1
                    (some (Block.hdr Val.undef Val.undef))) 1
                    (some (Block.hdr (Val.num n) Val.undef))) 2
                    (some (Block.arr (List.replicate MAX_PORTS Val.undef)))) 1
                    (some (Block.hdr (Val.num n) (Val.ptr 2)))) x = none
                  rw [hupd_ne _ _ _ _ hx1, hupd_ne _ _ _ _ hx2, hupd_ne _ _ _ _ hx1,
                    hupd_ne _ _ _ _ hx1]
                  rfl

/-! ### Characterization of `PINS_destroyInstance` on a live instance -/

theorem destroyPins_char (mA b : Nat) (fuel : Nat) :
    ∀ (j : Nat) (s : AState) (vs : List Val),
      s.heap mA = some (Block.arr vs) →
      0 < b →
      j + fuel ≤ vs.length →
      (∀ k, j ≤ k → k < j + fuel →
        vs[k]? = some (Val.ptr (b + k)) ∧ b + k ≠ mA ∧ (s.heap (b + k)).isSome = true) →
      ∃ s2, destroyPins s mA fuel j = some s2 ∧
        s2.next = s.next ∧ s2.cnt = s.cnt ∧
        ∀ x, s2.heap x =
          if x = mA then some (Block.arr (nullSlots vs j fuel))
          else if b + j ≤ x ∧ x < b + j + fuel then none
          else s.heap x := by
  induction fuel with
  | zero =>
      intro j s vs hm hb hlen hk
      refine ⟨s, rfl, rfl, rfl, fun x => ?_⟩
      rw [nullSlots]
      by_cases hx : x = mA
      · subst hx
        rw [if_pos rfl, hm]
      · rw [if_neg hx, if_neg (by omega)]
  | succ f ih =>
      intro j s vs hm hb hlen hk
      obtain ⟨hvj, hbjmA, hbjS⟩ := hk j (le_refl j) (by omega)
      obtain ⟨bj, hbj⟩ := Option.isSome_iff_exists.mp hbjS
      rw [destroyPins, readArr_some s mA j vs hm, hvj]
      simp only [Option.bind_eq_bind, Option.some_bind, ptrOf]
      rw [if_neg (by omega)]
      rw [free_some s (b + j) bj hbj]
      simp only [Option.bind_eq_bind, Option.some_bind]
      rw [writeArr_some ⟨hupd s.heap (b + j) none, s.next, s.cnt⟩ mA j (Val.ptr 0) vs
        (by
          show (hupd s.heap (b + j) none) mA = _
          rw [hupd_ne _ _ _ _ (Ne.symm hbjmA)]
          exact hm)
        (by omega)]
      simp only [Option.bind_eq_bind, Option.some_bind]
      obtain ⟨s2, hrec, hn, hc, hh⟩ := ih (j + 1)
        ⟨hupd (hupd s.heap (b + j) none) mA (some (Block.arr (vs.set j (Val.ptr 0)))),
          s.next, s.cnt⟩
        (vs.set j (Val.ptr 0))
        (by exact hupd_self _ _ _)
        hb
        (by rw [List.length_set]; omega)
        (by
          intro k hk1 hk2
          obtain ⟨h1, h2, h3⟩ := hk k (by omega) (by omega)
          refine ⟨by rw [List.getElem?_set_ne (by omega)]; exact h1, h2, ?_⟩
          show ((hupd (hupd s.heap (b + j) none) mA
            (some (Block.arr (vs.set j (Val.ptr 0))))) (b + k)).isSome = true
          rw [hupd_ne _ _ _ _ h2, hupd_ne _ _ _ _ (by omega)]
          exact h3)
      refine ⟨s2, hrec, hn, hc, fun x => ?_⟩
      have hhx := hh x
      rw [nullSlots]
      by_cases hx : x = mA
      · subst hx
        rw [if_pos rfl] at hhx ⊢
        exact hhx
      · rw [if_neg hx] at hhx ⊢
        by_cases hx2 : b + (j + 1) ≤ x ∧ x < b + (j + 1) + f
        · rw [if_pos hx2] at hhx
          rw [if_pos (by omega)]
          exact hhx
        · rw [if_neg hx2] at hhx
          by_cases hx3 : x = b + j
          · subst hx3
            rw [if_pos (by omega), hhx]
            show (hupd (hupd s.heap (b + j) none) mA _) (b + j) = none
            rw [hupd_ne _ _ _ _ hbjmA, hupd_self]
          · rw [if_neg (by omega), hhx]
            show (hupd (hupd s.heap (b + j) none) mA _) x = s.heap x
            rw [hupd_ne _ _ _ _ hx, hupd_ne _ _ _ _ hx3]

theorem destroyPorts_char (oA np : Nat) (fuel : Nat) :
    ∀ (p : Nat) (s : AState) (ws : List Val) (mf : Nat → Nat),
      s.heap oA = some (Block.arr ws) →
      0 < oA →
      p + fuel ≤ ws.length →
      (∀ k, p ≤ k → k < p + fuel →
        ws[k]? = some (Val.ptr (mf k)) ∧
        oA < mf k ∧
        ∃ vs, s.heap (mf k) = some (Block.arr vs) ∧ np ≤ vs.length ∧
          (∀ i, i < np → vs[i]? = some (Val.ptr (mf k + 1 + i)) ∧
            (s.heap (mf k + 1 + i)).isSome = true)) →
      (∀ k k2, p ≤ k → k < p + fuel → p ≤ k2 → k2 < p + fuel → k ≠ k2 →
        mf k + np < mf k2 ∨ mf k2 + np < mf k) →
      ∃ s2, destroyPorts s oA np fuel p = some s2 ∧
        s2.next = s.next ∧ s2.cnt = s.cnt ∧
        s2.heap oA = some (Block.arr (nullSlots ws p fuel)) ∧
        (∀ k d, p ≤ k → k < p + fuel → d ≤ np → s2.heap (mf k + d) = none) ∧
        (∀ x, x ≠ oA → (∀ k, p ≤ k → k < p + fuel → ¬(mf k ≤ x ∧ x ≤ mf k + np)) →
          s2.heap x = s.heap x) := by
  induction fuel with
  | zero =>
      intro p s ws mf hm hoA hlen hcont hdisj
      refine ⟨s, rfl, rfl, rfl, by rw [nullSlots]; exact hm, ?_, ?_⟩
      · intro k d hk1 hk2
        omega
      · intro x hx hseg
        rfl
  | succ f ih =>
      intro p s ws mf hm hoA hlen hcont hdisj
      obtain ⟨hwp, hoAmf, vs, hvs, hvslen, hin⟩ := hcont p (le_refl p) (by omega)
      obtain ⟨sA, hA, hAn, hAc, hAh⟩ := destroyPins_char (mf p) (mf p + 1) np 0 s vs
        hvs (by omega) (by omega)
        (by
          intro k hk1 hk2
          obtain ⟨h1, h2⟩ := hin k (by omega)
          exact ⟨h1, by omega, h2⟩)
      have hsAmfp : sA.heap (mf p) = some (Block.arr (nullSlots vs 0 np)) := by
        have := hAh (mf p)
        rw [if_pos rfl] at this
        exact this
      have hsAoA : sA.heap oA = some (Block.arr ws) := by
        have := hAh oA
        rw [if_neg (by omega), if_neg (by omega)] at this
        rw [this, hm]
      rw [destroyPorts, readArr_some s oA p ws hm, hwp]
      simp only [Option.bind_eq_bind, Option.some_bind, ptrOf]
      rw [if_neg (by omega), hA]
      simp only [Option.bind_eq_bind, Option.some_bind]
      rw [free_some sA (mf p) (Block.arr (nullSlots vs 0 np)) hsAmfp]
      simp only [Option.bind_eq_bind, Option.some_bind]
      rw [writeArr_some ⟨hupd sA.heap (mf p) none, sA.next, sA.cnt⟩ oA p (Val.ptr 0) ws
        (by
          show (hupd sA.heap (mf p) none) oA = _
          rw [hupd_ne _ _ _ _ (by omega)]
          exact hsAoA)
        (by omega)]
      simp only [Option.bind_eq_bind, Option.some_bind]
      have hsC : ∀ x, (hupd (hupd sA.heap (mf p) none) oA
          (some (Block.arr (ws.set p (Val.ptr 0))))) x =
          if x = oA then some (Block.arr (ws.set p (Val.ptr 0)))
          else if x = mf p then none
          else sA.heap x := by
        intro x
        by_cases hx : x = oA
        · subst hx
          rw [hupd_self, if_pos rfl]
        · rw [hupd_ne _ _ _ _ hx, if_neg hx]
          by_cases hx2 : x = mf p
          · subst hx2
            rw [hupd_self, if_pos rfl]
          · rw [hupd_ne _ _ _ _ hx2, if_neg hx2]
      obtain ⟨s2, hrec, hn2, hc2, hoA2, hseg2, hout2⟩ := ih (p + 1)
        ⟨hupd (hupd sA.heap (mf p) none) oA (some (Block.arr (ws.set p (Val.ptr 0)))),
          sA.next, sA.cnt⟩
        (ws.set p (Val.ptr 0)) mf
        (by exact hupd_self _ _ _)
        hoA
        (by rw [List.length_set]; omega)
        (by
          intro k hk1 hk2
          obtain ⟨h1, h2, vsk, h3, h4, h5⟩ := hcont k (by omega) (by omega)
          have hd := hdisj p k (by omega) (by omega) (by omega) (by omega) (by omega)
          refine ⟨by rw [List.getElem?_set_ne (by omega)]; exact h1, h2, vsk, ?_, h4, ?_⟩
          · show (hupd (hupd sA.heap (mf p) none) oA _) (mf k) = _
            rw [hupd_ne _ _ _ _ (by omega), hupd_ne _ _ _ _ (by omega)]
            have := hAh (mf k)
            rw [if_neg (by omega), if_neg (by omega)] at this
            rw [this]
            exact h3
          · intro i hi
            obtain ⟨h6, h7⟩ := h5 i hi
            refine ⟨h6, ?_⟩
            show ((hupd (hupd sA.heap (mf p) none) oA _) (mf k + 1 + i)).isSome = true
            rw [hupd_ne _ _ _ _ (by omega), hupd_ne _ _ _ _ (by omega)]
            have := hAh (mf k + 1 + i)
            rw [if_neg (by omega), if_neg (by omega)] at this
            rw [this]
            exact h7)
        (by
          intro k k2 hk1 hk2 hk3 hk4 hk5
          exact hdisj k k2 (by omega) (by omega) (by omega) (by omega) hk5)
      refine ⟨s2, hrec, by rw [hn2, hAn], by rw [hc2, hAc], ?_, ?_, ?_⟩
      · rw [nullSlots]
        exact hoA2
      · intro k d hk1 hk2 hd
        by_cases hk : k = p
        · subst hk
          have hnone : (⟨hupd (hupd sA.heap (mf k) none) oA
              (some (Block.arr (ws.set k (Val.ptr 0)))), sA.next, sA.cnt⟩ : AState).heap
              (mf k + d) = none := by
            show (hupd (hupd sA.heap (mf k) none) oA _) (mf k + d) = none
            rw [hupd_ne _ _ _ _ (by omega)]
            by_cases hd0 : d = 0
            · subst hd0
              show (hupd sA.heap (mf k) none) (mf k + 0) = none
              rw [show mf k + 0 = mf k from rfl, hupd_self]
            · rw [hupd_ne _ _ _ _ (by omega)]
              have := hAh (mf k + d)
              rw [if_neg (by omega), if_pos (by omega)] at this
              exact this
          rw [hout2 (mf k + d) (by omega) (by
            intro k2 hka hkb
            have hd2 := hdisj k k2 (by omega) (by omega) (by omega) (by omega) (by omega)
            omega)]
          exact hnone
        · exact hseg2 k d (by omega) (by omega) hd
      · intro x hx hseg
        have hxp := hseg p (le_refl p) (by omega)
        rw [hout2 x hx (by
          intro k hka hkb
          exact hseg k (by omega) (by omega))]
        show (hupd (hupd sA.heap (mf p) none) oA _) x = s.heap x
        rw [hupd_ne _ _ _ _ hx, hupd_ne _ _ _ _ (by omega)]
        have := hAh x
        rw [if_neg (by omega), if_neg (by omega)] at this
        exact this

theorem mul_succ_le (k k2 n : Nat) (h : k < k2) :
    k * (n + 1) + (n + 1) ≤ k2 * (n + 1) := by
  have h3 : (k + 1) * (n + 1) = k * (n + 1) + (n + 1) := by ring
  have h2 : (k + 1) * (n + 1) ≤ k2 * (n + 1) := Nat.mul_le_mul_right _ h
  omega

theorem createdHeapFn_hdr (n : Nat) :
    createdHeapFn n 1 = some (Block.hdr (Val.num n) (Val.ptr 2)) := rfl

theorem createdHeapFn_outer (n : Nat) :
    createdHeapFn n 2 =
      some (Block.arr (fillPorts (List.replicate MAX_PORTS Val.undef) 0 3 n 4)) := rfl

theorem createdHeapFn_mid (n k : Nat) (hk : k < 4) :
    createdHeapFn n (3 + k * (n + 1)) =
      some (Block.arr ((List.range n).map fun i => Val.ptr (3 + k * (n + 1) + 1 + i))) := by
  have h2 := mul_succ_le k 4 n hk
  simp only [createdHeapFn]
  rw [if_neg (by omega), if_neg (by omega), if_pos (by constructor <;> omega)]
  exact segs_mid n 3 4 k hk

theorem createdHeapFn_inner (n k i : Nat) (hk : k < 4) (hi : i < n) :
    createdHeapFn n (3 + k * (n + 1) + 1 + i) =
      some (Block.arr (List.replicate MAX_FUNC Val.undef)) := by
  have h2 := mul_succ_le k 4 n hk
  simp only [createdHeapFn]
  rw [if_neg (by omega), if_neg (by omega), if_pos (by constructor <;> omega)]
  exact segs_inner n 3 4 k i hk hi

theorem createdHeapFn_none (n x : Nat) (hx1 : x ≠ 1) (hx2 : x ≠ 2)
    (hx : ∀ k d, k < 4 → d ≤ n → x ≠ 3 + k * (n + 1) + d) :
    createdHeapFn n x = none := by
  by_cases hr : 3 ≤ x ∧ x < 3 + 4 * (n + 1)
  · obtain ⟨p, d, hp, hd, hxe⟩ := seg_decompose n x hr.1 hr.2
    exact absurd hxe (hx p d hp hd)
  · simp only [createdHeapFn]
    rw [if_neg hx1, if_neg hx2, if_neg hr]

theorem destroy_created (n : Nat) (s : AState)
    (hheap : ∀ x, s.heap x = createdHeapFn n x) :
    ∃ s2, PINS_destroyInstance s 1 = some (s2, SUCCESS) ∧
      s2.next = s.next ∧ s2.cnt = s.cnt ∧ ∀ x, s2.heap x = none := by
  have h1 : s.heap 1 = some (Block.hdr (Val.num n) (Val.ptr 2)) := by
    rw [hheap 1, createdHeapFn_hdr]
  have h2 : s.heap 2 =
      some (Block.arr (fillPorts (List.replicate MAX_PORTS Val.undef) 0 3 n 4)) := by
    rw [hheap 2, createdHeapFn_outer]
  have hwslen : (fillPorts (List.replicate MAX_PORTS Val.undef) 0 3 n 4).length = 4 := by
    rw [fillPorts_length, List.length_replicate]
    rfl
  obtain ⟨sD, hD, hDn, hDc, hDoA, hDseg, hDout⟩ := destroyPorts_char 2 n 4 0 s
    (fillPorts (List.replicate MAX_PORTS Val.undef) 0 3 n 4) (mAd n)
    h2 (by omega) (by omega)
    (by
      intro k hk1 hk2
      have hk4 : k < 4 := by omega
      refine ⟨?_, by rw [mAd]; omega, ?_⟩
      · rw [fillPorts_getElem? _ _ _ _ _ _ (by rw [List.length_replicate]; decide),
          if_pos (by omega), mAd]
        simp
      · refine ⟨(List.range n).map fun i => Val.ptr (3 + k * (n + 1) + 1 + i), ?_, ?_, ?_⟩
        · rw [mAd, hheap, createdHeapFn_mid n k hk4]
        · rw [List.length_map, List.length_range]
        · intro i hi
          constructor
          · rw [List.getElem?_map, List.getElem?_range hi]
            simp [mAd]
          · rw [mAd, hheap, createdHeapFn_inner n k i hk4 hi]
            rfl)
    (by
      intro k k2 hk1 hk2 hk3 hk4 hk5
      rcases Nat.lt_or_ge k k2 with hlt | hge
      · left
        have := mul_succ_le k k2 n hlt
        rw [mAd, mAd]
        omega
      · right
        have hlt2 : k2 < k := by omega
        have := mul_succ_le k2 k n hlt2
        rw [mAd, mAd]
        omega)
  have hsD1 : sD.heap 1 = some (Block.hdr (Val.num n) (Val.ptr 2)) := by
    rw [hDout 1 (by omega) (by
      intro k hk1 hk2
      rw [mAd]
      omega), h1]
  rw [PINS_destroyInstance, if_neg (by omega), h1]
  simp only [Option.bind_eq_bind, Option.some_bind, ptrOf]
  rw [if_neg (by omega), hD]
  simp only [Option.bind_eq_bind, Option.some_bind]
  rw [free_some sD 2 _ hDoA]
  simp only [Option.bind_eq_bind, Option.some_bind]
  rw [writeHdrPins_some ⟨hupd sD.heap 2 none, sD.next, sD.cnt⟩ 1 (Val.num n) (Val.ptr 2)
    (Val.ptr 0)
    (by
      show (hupd sD.heap 2 none) 1 = _
      rw [hupd_ne _ _ _ _ (by omega)]
      exact hsD1)]
  simp only [Option.bind_eq_bind, Option.some_bind]
  rw [free_some
    ⟨hupd (hupd sD.heap 2 none) 1 (some (Block.hdr (Val.num n) (Val.ptr 0))),
      sD.next, sD.cnt⟩ 1 (Block.hdr (Val.num n) (Val.ptr 0))
    (by
      show (hupd (hupd sD.heap 2 none) 1 (some (Block.hdr (Val.num n) (Val.ptr 0)))) 1 = _
      rw [hupd_self])]
  refine ⟨_, rfl, by rw [hDn], by rw [hDc], fun x => ?_⟩
  show (hupd (hupd (hupd sD.heap 2 none) 1 (some (Block.hdr (Val.num n) (Val.ptr 0)))) 1
    none) x = none
  by_cases hx1 : x = 1
  · subst hx1
    rw [hupd_self]
  · rw [hupd_ne _ _ _ _ hx1, hupd_ne _ _ _ _ hx1]
    by_cases hx2 : x = 2
    · subst hx2
      rw [hupd_self]
    · rw [hupd_ne _ _ _ _ hx2]
      by_cases hseg : ∃ k d, k < 4 ∧ d ≤ n ∧ x = 3 + k * (n + 1) + d
      · obtain ⟨k, d, hk, hd, hxe⟩ := hseg
        subst hxe
        have := hDseg k d (by omega) (by omega) hd
        rw [mAd] at this
        exact this
      · push_neg at hseg
        rw [hDout x hx2 (by
          intro k hk1 hk2
          rw [mAd]
          rintro ⟨hc1, hc2⟩
          exact hseg k (x - (3 + k * (n + 1))) (by omega) (by omega) (by omega)), hheap x]
        exact createdHeapFn_none n x hx1 hx2 hseg

/-! ### Shape of a live instance and cell accesses -/

/-- A live, fully allocated `pins_t` instance at address `a`: the header
stores `n` and points at the port-level array at `oA`; the four port slots
point at pin-level arrays of length `n` (at addresses `mA p`); each pin slot
points at a function-level array of length 3 (at `iA p i`); and all these
blocks are pairwise distinct live allocations. -/
structure ShapeAt (n : Nat) (h : Heap) (a oA : Nat) (mA : Nat → Nat)
    (iA : Nat → Nat → Nat) : Prop where
  hdr_ok : h a = some (Block.hdr (Val.num n) (Val.ptr oA))
  outer_ok : ∃ ws, h oA = some (Block.arr ws) ∧ ws.length = 4 ∧
    ∀ p, p < 4 → ws[p]? = some (Val.ptr (mA p))
  mid_ok : ∀ p, p < 4 → ∃ vs, h (mA p) = some (Block.arr vs) ∧ vs.length = n ∧
    ∀ i, i < n → vs[i]? = some (Val.ptr (iA p i))
  inner_ok : ∀ p i, p < 4 → i < n → ∃ cs, h (iA p i) = some (Block.arr cs) ∧ cs.length = 3
  a_pos : 0 < a
  oA_pos : 0 < oA
  mA_pos : ∀ p, p < 4 → 0 < mA p
  iA_pos : ∀ p i, p < 4 → i < n → 0 < iA p i
  a_ne_oA : a ≠ oA
  a_ne_mA : ∀ p, p < 4 → a ≠ mA p
  a_ne_iA : ∀ p i, p < 4 → i < n → a ≠ iA p i
  oA_ne_mA : ∀ p, p < 4 → oA ≠ mA p
  oA_ne_iA : ∀ p i, p < 4 → i < n → oA ≠ iA p i
  mA_ne_iA : ∀ p q i, p < 4 → q < 4 → i < n → mA p ≠ iA q i
  iA_inj : ∀ p i q j, p < 4 → i < n → q < 4 → j < n → ¬(p = q ∧ i = j) → iA p i ≠ iA q j

/-- A successful `create` leaves behind a fully allocated instance. -/
theorem create_shape (plan : Nat → Bool) (n : Nat) (s2 : AState) (a : Nat)
    (h : PINS_createInstance plan n s0 = some (s2, a)) (ha : a ≠ 0) :
    ShapeAt n s2.heap 1 2 (fun p => 3 + p * (n + 1))
      (fun p i => 3 + p * (n + 1) + 1 + i) := by
  obtain ⟨ha1, hn, hc, hh⟩ := create_char plan n s2 a h ha
  constructor
  · rw [hh 1, createdHeapFn_hdr]
  · refine ⟨fillPorts (List.replicate MAX_PORTS Val.undef) 0 3 n 4, ?_, ?_, ?_⟩
    · rw [hh 2, createdHeapFn_outer]
    · rw [fillPorts_length, List.length_replicate]
      rfl
    · intro p hp
      rw [fillPorts_getElem? _ _ _ _ _ _ (by rw [List.length_replicate]; decide),
        if_pos (by omega)]
      simp
  · intro p hp
    refine ⟨(List.range n).map fun i => Val.ptr (3 + p * (n + 1) + 1 + i), ?_, ?_, ?_⟩
    · rw [hh, createdHeapFn_mid n p hp]
    · rw [List.length_map, List.length_range]
    · intro i hi
      rw [List.getElem?_map, List.getElem?_range hi]
      rfl
  · intro p i hp hi
    exact ⟨List.replicate MAX_FUNC Val.undef,
      by rw [hh, createdHeapFn_inner n p i hp hi], by rw [List.length_replicate]; rfl⟩
  · omega
  · omega
  · intro p hp
    omega
  · intro p i hp hi
    omega
  · omega
  · intro p hp
    omega
  · intro p i hp hi
    omega
  · intro p hp
    omega
  · intro p i hp hi
    omega
  · intro p q i hp hq hi
    rcases Nat.lt_trichotomy p q with hpq | hpq | hpq
    · have := mul_succ_le p q n hpq
      omega
    · subst hpq
      omega
    · have := mul_succ_le q p n hpq
      omega
  · intro p i q j hp hi hq hj hne
    rcases Nat.lt_trichotomy p q with hpq | hpq | hpq
    · have := mul_succ_le p q n hpq
      omega
    · subst hpq
      have hij : i ≠ j := by tauto
      omega
    · have := mul_succ_le q p n hpq
      omega

/-- `readCell` on a live instance reads slot `f` of the function-level
block of `(p, i)`. -/
theorem readCell_eq (n : Nat) (s : AState) (a oA : Nat) (mA : Nat → Nat)
    (iA : Nat → Nat → Nat) (hs : ShapeAt n s.heap a oA mA iA)
    (p i f : Nat) (hp : p < 4) (hi : i < n) (cs : List Val)
    (hcs : s.heap (iA p i) = some (Block.arr cs)) :
    readCell s a p i f = cs[f]? := by
  obtain ⟨ws, hws, hwsl, hwsg⟩ := hs.outer_ok
  obtain ⟨vs, hvs, hvsl, hvsg⟩ := hs.mid_ok p hp
  rw [readCell, hs.hdr_ok]
  simp only [Option.bind_eq_bind, Option.some_bind, ptrOf]
  rw [readArr_some s oA p ws hws, hwsg p hp]
  simp only [Option.bind_eq_bind, Option.some_bind, ptrOf]
  rw [readArr_some s (mA p) i vs hvs, hvsg i hi]
  simp only [Option.bind_eq_bind, Option.some_bind, ptrOf]
  rw [readArr_some s (iA p i) f cs hcs]

/-- `writeCell` on a live instance updates slot `f` of the function-level
block of `(p, i)` and nothing else. -/
theorem writeCell_eq (n : Nat) (s : AState) (a oA : Nat) (mA : Nat → Nat)
    (iA : Nat → Nat → Nat) (hs : ShapeAt n s.heap a oA mA iA)
    (p i f : Nat) (hp : p < 4) (hi : i < n) (hf : f < 3) (v : Val)
    (cs : List Val) (hcs : s.heap (iA p i) = some (Block.arr cs)) (hcsl : cs.length = 3) :
    writeCell s a p i f v =
      some ⟨hupd s.heap (iA p i) (some (Block.arr (cs.set f v))), s.next, s.cnt⟩ := by
  obtain ⟨ws, hws, hwsl, hwsg⟩ := hs.outer_ok
  obtain ⟨vs, hvs, hvsl, hvsg⟩ := hs.mid_ok p hp
  rw [writeCell, hs.hdr_ok]
  simp only [Option.bind_eq_bind, Option.some_bind, ptrOf]
  rw [readArr_some s oA p ws hws, hwsg p hp]
  simp only [Option.bind_eq_bind, Option.some_bind, ptrOf]
  rw [readArr_some s (mA p) i vs hvs, hvsg i hi]
  simp only [Option.bind_eq_bind, Option.some_bind, ptrOf]
  rw [writeArr_some s (iA p i) f v cs hcs (by omega)]

/-- Writing one cell preserves the live-instance shape. -/
theorem ShapeAt_update (n : Nat) (s : AState) (a oA : Nat) (mA : Nat → Nat)
    (iA : Nat → Nat → Nat) (hs : ShapeAt n s.heap a oA mA iA)
    (p i f : Nat) (hp : p < 4) (hi : i < n) (v : Val)
    (cs : List Val) (hcs : s.heap (iA p i) = some (Block.arr cs)) (hcsl : cs.length = 3) :
    ShapeAt n (hupd s.heap (iA p i) (some (Block.arr (cs.set f v)))) a oA mA iA := by
  constructor
  · rw [hupd_ne _ _ _ _ (hs.a_ne_iA p i hp hi)]
    exact hs.hdr_ok
  · obtain ⟨ws, hws, hwsl, hwsg⟩ := hs.outer_ok
    exact ⟨ws, by rw [hupd_ne _ _ _ _ (hs.oA_ne_iA p i hp hi)]; exact hws, hwsl, hwsg⟩
  · intro q hq
    obtain ⟨vs, hvs, hvsl, hvsg⟩ := hs.mid_ok q hq
    exact ⟨vs, by rw [hupd_ne _ _ _ _ (hs.mA_ne_iA q p i hq hp hi)]; exact hvs, hvsl, hvsg⟩
  · intro q j hq hj
    by_cases hqj : q = p ∧ j = i
    · obtain ⟨hq1, hj1⟩ := hqj
      subst hq1
      subst hj1
      exact ⟨cs.set f v, by rw [hupd_self], by rw [List.length_set]; exact hcsl⟩
    · obtain ⟨cs2, hcs2, hcs2l⟩ := hs.inner_ok q j hq hj
      refine ⟨cs2, ?_, hcs2l⟩
      rw [hupd_ne _ _ _ _ (hs.iA_inj q j p i hq hj hp hi hqj)]
      exact hcs2
  · exact hs.a_pos
  · exact hs.oA_pos
  · exact hs.mA_pos
  · exact hs.iA_pos
  · exact hs.a_ne_oA
  · exact hs.a_ne_mA
  · exact hs.a_ne_iA
  · exact hs.oA_ne_mA
  · exact hs.oA_ne_iA
  · exact hs.mA_ne_iA
  · exact hs.iA_inj

/-! ### Claim theorems -/

/-- Claim C1: the rollback contract fails.  The claim says every
allocation-failure point during `create` rolls back cleanly, but injecting
a failure at the first pin-level allocation (request number 2, with
`pinCount = 1`) makes the rollback call of `PINS_destroyInstance` branch on
the uninitialized port slots `pins[1..3]` of the malloc'd (never
initialized) port-level array — undefined behaviour, modelled as a fault
(`none`) — instead of releasing the two live blocks and returning the
failure signal. -/
theorem C1_rollback_fault : PINS_createInstance (planFailAt 2) 1 s0 = none := rfl

/-- Claim C2: the claim says `destroy` on a NULL instance returns
`InvalidArgument` distinct from `Success`; in the code the `-EINVAL` stored
in `ret` is dead and the function returns `SUCCESS` for the NULL input,
which is not distinct from success. -/
theorem C2_destroy_null_returns_success (s : AState) :
    PINS_destroyInstance s 0 = some (s, SUCCESS) ∧ SUCCESS ≠ -EINVAL :=
  ⟨by rw [PINS_destroyInstance, if_pos rfl], by decide⟩

/-- Claim C3 (counterexample): after a successful `create 1`, cell
`(A, 0, OUT)` holds the uninitialized marker, not `GPIO_OFF` — `create`
mallocs the function-level blocks and never initializes them. -/
theorem C3_cell_not_off :
    (do
      let r ← PINS_createInstance planAll 1 s0
      readCell r.1 r.2 0 0 0) = some Val.undef ∧ Val.undef ≠ Val.int GPIO_OFF :=
  ⟨rfl, by decide⟩

/-- Claim C3 (amended): when `create` succeeds every cell holds the
uninitialized marker (no defined value), not `OFF`; after `create 6` and
writing the three example cells to `ON`, the three written cells read `ON`
and every other cell still holds the uninitialized marker. -/
theorem C3_cells_uninitialized :
    (∀ (plan : Nat → Bool) (n : Nat) (s2 : AState) (a : Nat),
      PINS_createInstance plan n s0 = some (s2, a) → a ≠ 0 →
      ∀ p i f, p < 4 → i < n → f < 3 → readCell s2 a p i f = some Val.undef) ∧
    (∀ p, p < 4 → ∀ i, i < 6 → ∀ f, f < 3 →
      (do
        let r ← PINS_createInstance planAll 6 s0
        let t1 ← writeCell r.1 r.2 0 0 0 (Val.int GPIO_ON)
        let t2 ← writeCell t1 r.2 1 2 2 (Val.int GPIO_ON)
        let t3 ← writeCell t2 r.2 2 5 1 (Val.int GPIO_ON)
        readCell t3 r.2 p i f) =
      (if (p == 0 && i == 0 && f == 0) || (p == 1 && i == 2 && f == 2) ||
          (p == 2 && i == 5 && f == 1)
       then some (Val.int GPIO_ON) else some Val.undef)) := by
  refine ⟨?_, by decide⟩
  intro plan n s2 a h ha p i f hp hi hf
  have hs := create_shape plan n s2 a h ha
  obtain ⟨ha1, _, _, hh⟩ := create_char plan n s2 a h ha
  subst ha1
  rw [readCell_eq n s2 1 2 _ _ hs p i f hp hi (List.replicate MAX_FUNC Val.undef)
    (by rw [hh, createdHeapFn_inner n p i hp hi]),
    List.getElem?_replicate, if_pos (by have hmf : MAX_FUNC = 3 := rfl; omega)]

/-- Claim C3 (witness for the amended theorem): its general part applied to
the concrete instance `create 1`. -/
theorem C3_witness :
    ∃ s2 a, PINS_createInstance planAll 1 s0 = some (s2, a) ∧ a ≠ 0 ∧
      readCell s2 a 0 0 0 = some Val.undef := by
  refine ⟨_, _, rfl, by decide, ?_⟩
  exact C3_cells_uninitialized.1 planAll 1 _ _ rfl (by decide) 0 0 0
    (by decide) (by decide) (by decide)

/-- Claim C4: the claim says a second `destroy` on the same handle is a
safe no-op.  In the code `instance = NULL;` after `free(instance)` only
clears the local parameter, so the second call dereferences and frees the
already-freed header — a use-after-free and double free, modelled as a
fault (`none`). -/
theorem C4_double_destroy_fault :
    (do
      let r ← PINS_createInstance planAll 1 s0
      let d1 ← PINS_destroyInstance r.1 r.2
      PINS_destroyInstance d1.1 r.2) = none := rfl

/-- Claim C5: whenever `create` returns a non-null handle the instance is
fully allocated: the header, the port-level array, all 4 pin-level arrays
of length `pinCount` and all `4 * pinCount` function-level blocks of
length 3 exist at pairwise distinct nonzero addresses. -/
theorem C5_fully_allocated (plan : Nat → Bool) (n : Nat) (s2 : AState) (a : Nat)
    (h : PINS_createInstance plan n s0 = some (s2, a)) (ha : a ≠ 0) :
    a = 1 ∧ ShapeAt n s2.heap 1 2 (fun p => 3 + p * (n + 1))
      (fun p i => 3 + p * (n + 1) + 1 + i) :=
  ⟨(create_char plan n s2 a h ha).1, create_shape plan n s2 a h ha⟩

/-- Claim C5 (witness): the fully-allocated shape at the concrete instance
`create 1`. -/
theorem C5_witness :
    ∃ s2 a, PINS_createInstance planAll 1 s0 = some (s2, a) ∧ a ≠ 0 ∧ a = 1 ∧
      ShapeAt 1 s2.heap 1 2 (fun p => 3 + p * (1 + 1))
        (fun p i => 3 + p * (1 + 1) + 1 + i) := by
  refine ⟨_, _, rfl, by decide, C5_fully_allocated planAll 1 _ _ rfl (by decide)⟩

/-- Claim C6: for every `pinCount > 0`, `create` followed immediately by
`destroy` returns `SUCCESS` and leaves the allocation-tracking heap empty:
every block `create` allocated is freed, zero outstanding allocations. -/
theorem C6_create_destroy_no_leak (plan : Nat → Bool) (n : Nat) (s2 : AState) (a : Nat)
    (hn : 0 < n) (h : PINS_createInstance plan n s0 = some (s2, a)) (ha : a ≠ 0) :
    ∃ s3, PINS_destroyInstance s2 a = some (s3, SUCCESS) ∧ s3.heap = emptyHeap := by
  obtain ⟨ha1, _, _, hh⟩ := create_char plan n s2 a h ha
  subst ha1
  obtain ⟨s3, hd, _, _, hnone⟩ := destroy_created n s2 hh
  exact ⟨s3, hd, funext fun x => hnone x⟩

/-- Claim C6 (witness): no leak for the concrete run `create 1` then
`destroy`. -/
theorem C6_witness :
    ∃ s2 a, PINS_createInstance planAll 1 s0 = some (s2, a) ∧ a ≠ 0 ∧
      ∃ s3, PINS_destroyInstance s2 a = some (s3, SUCCESS) ∧ s3.heap = emptyHeap := by
  refine ⟨_, _, rfl, by decide,
    C6_create_destroy_no_leak planAll 1 _ _ (by decide) rfl (by decide)⟩

/-- The tail of `PINS_destroyInstance` after the port level is dealt with:
free the header and return `SUCCESS`; whatever state it is run from, the
status it returns is `SUCCESS`. -/
theorem destroy_ret_jp (a : Nat) (s4 : AState) (s2 : AState) (r : Int)
    (h : (do
      let s5 ← free a s4
      some (s5, SUCCESS)) = some (s2, r)) :
    r = SUCCESS := by
  rcases hf : free a s4 with _ | s5
  · rw [hf] at h
    simp only [Option.bind_eq_bind, Option.none_bind] at h
    cases h
  · rw [hf] at h
    simp only [Option.bind_eq_bind, Option.some_bind, Option.some.injEq,
      Prod.mk.injEq] at h
    exact h.2.symm

/-- Claim C7: whenever `PINS_destroyInstance` returns, the returned status
is `SUCCESS` — for a live handle, a partial instance or NULL alike — and
the `-EINVAL` value the function stores in its local `ret` for the NULL
input (`destroyInternalRet 0`) is never the returned value. -/
theorem C7_destroy_reports_success (s : AState) (a : Nat) (s2 : AState) (r : Int)
    (h : PINS_destroyInstance s a = some (s2, r)) :
    r = SUCCESS ∧ destroyInternalRet 0 ≠ SUCCESS := by
  refine ⟨?_, by decide⟩
  rw [PINS_destroyInstance] at h
  by_cases ha : a = 0
  · rw [if_pos ha] at h
    cases h
    rfl
  · rw [if_neg ha] at h
    rcases hh : s.heap a with _ | b
    · rw [hh] at h
      cases h
    · rcases b with ⟨np, pins⟩ | vs
      · rw [hh] at h
        simp only [] at h
        rcases hq : ptrOf pins with _ | q
        · rw [hq] at h
          simp only [Option.bind_eq_bind, Option.none_bind] at h
          cases h
        · rw [hq] at h
          simp only [Option.bind_eq_bind, Option.some_bind] at h
          by_cases hq0 : q = 0
          · rw [if_pos hq0] at h
            exact destroy_ret_jp a s s2 r h
          · rw [if_neg hq0] at h
            rcases np with _ | nv | iv | pv
            · simp only [Option.bind_eq_bind, Option.none_bind] at h
              cases h
            · simp only [Option.bind_eq_bind, Option.some_bind, Option.bind_eq_some,
                Option.some.injEq, Prod.mk.injEq] at h
              obtain ⟨s1v, hs1v, s2v, hs2v, s4v, hs4v, s5v, hs5v, he1, he2⟩ := h
              exact he2.symm
            · simp only [Option.bind_eq_bind, Option.none_bind] at h
              cases h
            · simp only [Option.bind_eq_bind, Option.none_bind] at h
              cases h
      · rw [hh] at h
        cases h

/-- Claim C7 (witness): the theorem applied to the concrete NULL call. -/
theorem C7_witness : SUCCESS = SUCCESS ∧ destroyInternalRet 0 ≠ SUCCESS :=
  C7_destroy_reports_success s0 0 s0 SUCCESS rfl

/-- Claim C8 (counterexample): the claim says `create 0` fails with
`InvalidArgument` and returns no handle; the code performs no `pinCount`
validation, and with an allocator that grants every request `create 0`
returns the non-null handle `1`. -/
theorem C8_create_zero_succeeds :
    (PINS_createInstance planAll 0 s0).map Prod.snd = some 1 ∧ (1 : Nat) ≠ 0 :=
  ⟨rfl, by decide⟩

/-- Claim C8 (amended): `create` does not validate `pinCount`; when every
allocation succeeds, `create 0` returns a handle to an instance whose
header stores `0` and whose four pin-level arrays are empty. -/
theorem C8_no_pincount_validation :
    ∃ s2, PINS_createInstance planAll 0 s0 = some (s2, 1) ∧
      s2.heap 1 = some (Block.hdr (Val.num 0) (Val.ptr 2)) ∧
      ∀ p, p < 4 → s2.heap (3 + p * (0 + 1)) = some (Block.arr []) := by
  refine ⟨_, rfl, by decide, by decide⟩

/-- Claim C9: on any live instance, writing a cell and reading it back
returns exactly the value written, and reading any other in-range cell
after the write returns what it returned before the write. -/
theorem C9_cell_independence (n : Nat) (s : AState) (a oA : Nat) (mA : Nat → Nat)
    (iA : Nat → Nat → Nat) (hs : ShapeAt n s.heap a oA mA iA)
    (p i f p2 i2 f2 : Nat) (hp : p < 4) (hi : i < n) (hf : f < 3)
    (hp2 : p2 < 4) (hi2 : i2 < n) (hf2 : f2 < 3) (v : Val)
    (hne : ¬(p = p2 ∧ i = i2 ∧ f = f2)) :
    ∃ s2, writeCell s a p i f v = some s2 ∧
      readCell s2 a p i f = some v ∧
      readCell s2 a p2 i2 f2 = readCell s a p2 i2 f2 := by
  obtain ⟨cs, hcs, hcsl⟩ := hs.inner_ok p i hp hi
  have hw := writeCell_eq n s a oA mA iA hs p i f hp hi hf v cs hcs hcsl
  have hs2 : ShapeAt n
      ((⟨hupd s.heap (iA p i) (some (Block.arr (cs.set f v))), s.next, s.cnt⟩ :
        AState).heap) a oA mA iA :=
    ShapeAt_update n s a oA mA iA hs p i f hp hi v cs hcs hcsl
  refine ⟨_, hw, ?_, ?_⟩
  · rw [readCell_eq n _ a oA mA iA hs2 p i f hp hi (cs.set f v)
      (by
        show (hupd s.heap (iA p i) (some (Block.arr (cs.set f v)))) (iA p i) = _
        rw [hupd_self])]
    exact List.getElem?_set_self (by omega)
  · by_cases hpi : p2 = p ∧ i2 = i
    · obtain ⟨hp1, hi1⟩ := hpi
      subst hp1
      subst hi1
      have hfne : f ≠ f2 := by tauto
      rw [readCell_eq n _ a oA mA iA hs2 p2 i2 f2 hp2 hi2 (cs.set f v)
        (by
          show (hupd s.heap (iA p2 i2) (some (Block.arr (cs.set f v)))) (iA p2 i2) = _
          rw [hupd_self]),
        readCell_eq n s a oA mA iA hs p2 i2 f2 hp2 hi2 cs hcs,
        List.getElem?_set_ne hfne]
    · obtain ⟨cs2, hcs2, hcs2l⟩ := hs.inner_ok p2 i2 hp2 hi2
      have hAne : iA p2 i2 ≠ iA p i :=
        hs.iA_inj p2 i2 p i hp2 hi2 hp hi hpi
      rw [readCell_eq n _ a oA mA iA hs2 p2 i2 f2 hp2 hi2 cs2
        (by
          show (hupd s.heap (iA p i) (some (Block.arr (cs.set f v)))) (iA p2 i2) = _
          rw [hupd_ne _ _ _ _ hAne]
          exact hcs2),
        readCell_eq n s a oA mA iA hs p2 i2 f2 hp2 hi2 cs2 hcs2]

/-- Claim C9 (witness): write cell `(A,0,OUT)` of a live `create 1`
instance, read it back, and check cell `(A,0,IN)` is unchanged. -/
theorem C9_witness :
    ∃ s2 a, PINS_createInstance planAll 1 s0 = some (s2, a) ∧ a ≠ 0 ∧
      ∃ s3, writeCell s2 a 0 0 0 (Val.int GPIO_ON) = some s3 ∧
        readCell s3 a 0 0 0 = some (Val.int GPIO_ON) ∧
        readCell s3 a 0 0 1 = readCell s2 a 0 0 1 := by
  refine ⟨_, _, rfl, by decide, ?_⟩
  exact C9_cell_independence 1 _ 1 2 _ _ (create_shape planAll 1 _ _ rfl (by decide))
    0 0 0 0 0 1 (by decide) (by decide) (by decide) (by decide) (by decide) (by decide)
    (Val.int GPIO_ON) (by decide)

/-- Claim C10 (counterexample): the claim says every rollback invocation of
the destruction routine iterates over exactly `n` pin slots per port; with
`pinCount = 2` and a failure injected at the first function-level
allocation (request 3), the rollback aborts with a fault on an
uninitialized port slot instead of completing its iteration, so `create`
does not terminate normally. -/
theorem C10_rollback_aborts : PINS_createInstance (planFailAt 3) 2 s0 = none := rfl

/-- Claim C10 (amended): `create` stores `n` in the header before any
nested allocation and never rewrites it — whenever `create` returns a
handle the header still stores `n`, every pin-level array has exactly `n`
slots, and `destroy` (whose pin-loop bound is the stored field) frees all
of them, emptying the heap.  Rollback invocations also use the stored `n`
but fault on uninitialized slots before completing the iteration. -/
theorem C10_header_pin_count (plan : Nat → Bool) (n : Nat) (s2 : AState) (a : Nat)
    (h : PINS_createInstance plan n s0 = some (s2, a)) (ha : a ≠ 0) :
    s2.heap a = some (Block.hdr (Val.num n) (Val.ptr 2)) ∧
    (∀ p, p < 4 → ∃ vs, s2.heap (3 + p * (n + 1)) = some (Block.arr vs) ∧
      vs.length = n) ∧
    ∃ s3, PINS_destroyInstance s2 a = some (s3, SUCCESS) ∧ ∀ x, s3.heap x = none := by
  obtain ⟨ha1, _, _, hh⟩ := create_char plan n s2 a h ha
  subst ha1
  refine ⟨by rw [hh 1, createdHeapFn_hdr], ?_, ?_⟩
  · intro p hp
    exact ⟨(List.range n).map fun i => Val.ptr (3 + p * (n + 1) + 1 + i),
      by rw [hh, createdHeapFn_mid n p hp], by rw [List.length_map, List.length_range]⟩
  · obtain ⟨s3, hd, _, _, hnone⟩ := destroy_created n s2 hh
    exact ⟨s3, hd, hnone⟩

/-- Claim C10 (witness): the amended statement at the concrete instance
`create 1`. -/
theorem C10_witness :
    ∃ s2 a, PINS_createInstance planAll 1 s0 = some (s2, a) ∧ a ≠ 0 ∧
      s2.heap a = some (Block.hdr (Val.num 1) (Val.ptr 2)) := by
  refine ⟨_, _, rfl, by decide, ?_⟩
  exact (C10_header_pin_count planAll 1 _ _ rfl (by decide)).1
